import Mathlib

/-!
Verification development for the swagger-navigator-mcp refresh-and-query
coordination layer.  The definitions below are a shallow embedding of the
TypeScript source under src/: pure functions become Lean functions, the
JavaScript `Map` becomes an insertion-ordered association list, fallible
calls return `Except`, and the cooperative (event-loop) concurrency of the
coordinator is modelled as an explicit step relation whose atomic steps are
exactly the synchronous regions between `await` points of the source.
-/

/- ## Data model (src/src/types/swagger.ts) -/

/-- Endpoint record produced by the document parser
(src/src/types/swagger.ts:79-92).  Only the fields consulted by the
coordination layer and the search index are retained; the remaining payload
fields (parameters, responses, ...) are opaque to every operation modelled
here. -/
structure ParsedEndpoint where
  path : String
  method : String
  summary : String
  description : String
  tags : List String
deriving DecidableEq, Repr

/-- Endpoint tagged with its owning source, as built by createFuseIndex
(src/src/index.ts:123-126): `\x7b ...endpoint, source_name \x7d`. -/
structure ExtendedParsedEndpoint extends ParsedEndpoint where
  source_name : String
deriving DecidableEq, Repr

/-- Parse error record (src/src/types/swagger.ts:108-112). -/
structure SwaggerParseError where
  details : String
  code : String
  source : String
deriving DecidableEq, Repr

/-- Parsed specification (src/src/types/swagger.ts:94-106), restricted to the
fields the coordinator reads: the owning source name and the endpoint list. -/
structure ParsedSwaggerSpec where
  sourceName : String
  endpoints : List ParsedEndpoint
deriving DecidableEq, Repr

/-- Result of one parser invocation (src/src/types/swagger.ts:123-128). -/
structure SwaggerParserResult where
  success : Bool
  spec : Option ParsedSwaggerSpec
  errors : Option (List SwaggerParseError)
deriving DecidableEq, Repr

/- ## Configuration (src/src/types/config.ts) -/

/-- One configured source (src/src/types/config.ts:10-18).  The optional
tags/headers/auth fields are not consulted by any operation modelled here. -/
structure SwaggerSource where
  name : String
  source : String
  description : Option String
deriving DecidableEq, Repr

/-- Search configuration (src/src/types/config.ts:21-24). -/
structure SearchConfig where
  fuzzyThreshold : ℚ
  maxResults : ℕ
deriving DecidableEq, Repr

/-- Validated configuration (src/src/types/config.ts:27-33); the
refreshInterval consumed by the timer is orthogonal to every claim and
omitted. -/
structure SwaggerMCPConfig where
  sources : List SwaggerSource
  search : SearchConfig
deriving DecidableEq, Repr

/- ## JavaScript Map embedding -/

/-- JavaScript `Map.set` on an insertion-ordered association list: an
existing key keeps its position and gets the new value, a fresh key is
appended. -/
def mapSet {α : Type} (m : List (String × α)) (k : String) (v : α) :
    List (String × α) :=
  if k ∈ m.map Prod.fst then
    m.map (fun p => if p.1 = k then (k, v) else p)
  else m ++ [(k, v)]

/-- JavaScript `Map.get` via the first (only) binding of the key. -/
def specsLookup (m : List (String × SwaggerParserResult)) (k : String) :
    Option SwaggerParserResult :=
  (m.find? (fun p => p.1 == k)).map Prod.snd

/- ## Ingestion pipeline (src/src/index.ts:66-113) -/

/-- Accumulated result of parseAllSources (src/src/index.ts:66-70). -/
structure ParseAllResult where
  successCount : ℕ
  errorCount : ℕ
  newParsedSpecs : List (String × SwaggerParserResult)
deriving DecidableEq, Repr

/-- One iteration of the parseAllSources loop body (src/src/index.ts:78-109):
a parser result that is successful and carries a spec is stored as-is; an
unsuccessful result is stored with `success: false` and its errors; a thrown
error is stored as a single UNKNOWN-coded error.  The thrown case is
modelled by `Except.error`. -/
def parseStep (parse : SwaggerSource → Except String SwaggerParserResult)
    (s : SwaggerSource) (acc : ParseAllResult) : ParseAllResult :=
  match parse s with
  | .ok r =>
    if r.success && r.spec.isSome then
      { successCount := acc.successCount + 1
        errorCount := acc.errorCount
        newParsedSpecs := mapSet acc.newParsedSpecs s.name r }
    else
      { successCount := acc.successCount
        errorCount := acc.errorCount + 1
        newParsedSpecs := mapSet acc.newParsedSpecs s.name
          { success := false, spec := none, errors := r.errors } }
  | .error msg =>
      { successCount := acc.successCount
        errorCount := acc.errorCount + 1
        newParsedSpecs := mapSet acc.newParsedSpecs s.name
          { success := false, spec := none
            errors := some [{ details := msg, code := "UNKNOWN", source := s.name }] } }

/-- The for-loop of parseAllSources over the configured sources. -/
def parseAllGo (parse : SwaggerSource → Except String SwaggerParserResult) :
    List SwaggerSource → ParseAllResult → ParseAllResult
  | [], acc => acc
  | s :: rest, acc => parseAllGo parse rest (parseStep parse s acc)

/-- parseAllSources (src/src/index.ts:66-113): builds a fresh map with one
entry per configured source and counts successes and failures. -/
def parseAllSources (sources : List SwaggerSource)
    (parse : SwaggerSource → Except String SwaggerParserResult) : ParseAllResult :=
  parseAllGo parse sources { successCount := 0, errorCount := 0, newParsedSpecs := [] }

/-- Whether ingestion of one source fails: the parser either throws or
returns a result that is unsuccessful or lacks a spec
(the negation of the test at src/src/index.ts:83). -/
def sourceFails (parse : SwaggerSource → Except String SwaggerParserResult)
    (s : SwaggerSource) : Bool :=
  match parse s with
  | .ok r => !(r.success && r.spec.isSome)
  | .error _ => true

/-- The map entry parseAllSources records for one source. -/
def parseOutcome (parse : SwaggerSource → Except String SwaggerParserResult)
    (s : SwaggerSource) : SwaggerParserResult :=
  match parse s with
  | .ok r =>
    if r.success && r.spec.isSome then r
    else { success := false, spec := none, errors := r.errors }
  | .error msg =>
      { success := false, spec := none
        errors := some [{ details := msg, code := "UNKNOWN", source := s.name }] }

/- ## Index builder (src/src/index.ts:118-144) -/

/-- Options captured by the Fuse constructor call (src/src/index.ts:129-141).
Key weights are recorded in hundredths. -/
structure FuseOptions where
  includeScore : Bool
  shouldSort : Bool
  keys : List (String × ℕ)
  threshold : ℚ
deriving DecidableEq, Repr

/-- The constructed search index: the fuzzy search engine is external to the
core (spec §1); a Fuse instance is determined by the document collection and
the options it was constructed with. -/
structure FuseIndex where
  docs : List ExtendedParsedEndpoint
  opts : FuseOptions
deriving DecidableEq, Repr

/-- The six weighted keys of src/src/index.ts:132-139 (weights in
hundredths). -/
def fuseKeys : List (String × ℕ) :=
  [("description", 30), ("summary", 20), ("path", 20),
   ("method", 15), ("source_name", 10), ("tags", 5)]

/-- Result of createFuseIndex (src/src/index.ts:118-121). -/
structure FuseBuild where
  endpoints : List ExtendedParsedEndpoint
  fuse : FuseIndex
deriving DecidableEq, Repr

/-- The per-entry flattening step of createFuseIndex
(src/src/index.ts:123-126): a spec contributes its endpoints tagged with its
source name (an empty name falls back to "Unknown", mirroring the
`|| "Unknown"` on a falsy string); an entry without a spec contributes
nothing (the `|| []`). -/
def entryEndpoints (r : SwaggerParserResult) : List ExtendedParsedEndpoint :=
  match r.spec with
  | some sp =>
      sp.endpoints.map (fun e =>
        { toParsedEndpoint := e
          source_name := if sp.sourceName = "" then "Unknown" else sp.sourceName })
  | none => []

/-- createFuseIndex (src/src/index.ts:118-144): flattens all entries of the
given snapshot in insertion order and constructs the search index over the
flattened collection with the fixed weighted keys and the configured fuzzy
threshold. -/
def createFuseIndex (specs : List (String × SwaggerParserResult))
    (cfg : SwaggerMCPConfig) : FuseBuild :=
  let endpoints := (specs.map (fun p => entryEndpoints p.2)).flatten
  { endpoints := endpoints
    fuse := { docs := endpoints
              opts := { includeScore := true, shouldSort := true
                        keys := fuseKeys, threshold := cfg.search.fuzzyThreshold } } }

/-- Occurrence of one character list inside another (used to model
approximate text matching deterministically). -/
def charsOccur (needle : List Char) : List Char → Bool
  | [] => needle.isEmpty
  | c :: rest => needle.isPrefixOf (c :: rest) || charsOccur needle rest

/-- The field of a tagged endpoint addressed by a Fuse key name. -/
def keyField (e : ExtendedParsedEndpoint) : String → String
  | "description" => e.description
  | "summary" => e.summary
  | "path" => e.path
  | "method" => e.method
  | "source_name" => e.source_name
  | "tags" => String.intercalate " " e.tags
  | _ => ""

/-- Deterministic model of the external fuzzy scorer: the weighted sum (in
hundredths) of the keys whose field contains the query text.  The exact scoring algorithm of the engine is out of scope (spec §1); the model only has to be
a function of the index contents and the query. -/
def fuseScore (f : FuseIndex) (e : ExtendedParsedEndpoint) (q : String) : ℕ :=
  (f.opts.keys.map (fun k =>
    if charsOccur q.data (keyField e k.1).data then k.2 else 0)).sum

/-- Stable descending insertion by score. -/
def insertByScore (x : ExtendedParsedEndpoint × ℕ) :
    List (ExtendedParsedEndpoint × ℕ) → List (ExtendedParsedEndpoint × ℕ)
  | [] => [x]
  | y :: ys => if y.2 < x.2 then x :: y :: ys else y :: insertByScore x ys

/-- Stable descending sort by score. -/
def sortByScore : List (ExtendedParsedEndpoint × ℕ) →
    List (ExtendedParsedEndpoint × ℕ)
  | [] => []
  | x :: xs => insertByScore x (sortByScore xs)

/-- Model of `fuse.search(query)` (used at src/src/index.ts:641): matching
documents ranked by score, best first, ties kept in document order. -/
def fuseSearch (f : FuseIndex) (q : String) : List ExtendedParsedEndpoint :=
  (sortByScore ((f.docs.map (fun d => (d, fuseScore f d q))).filter
    (fun p => 0 < p.2))).map Prod.fst

/- ## Published state and refresh (src/src/index.ts:14-19, 160-197) -/

/-- The three published globals (src/src/index.ts:17-19). -/
structure PublishedState where
  parsedSpecs : List (String × SwaggerParserResult)
  allEndpoints : List ExtendedParsedEndpoint
  fuseEndpoints : FuseIndex
deriving DecidableEq, Repr

/-- State transformation of one refreshSources pass
(src/src/index.ts:160-197): ingest every source; when at least one source
succeeded, swap all three globals to values derived from the new snapshot;
otherwise leave every global untouched.  The try/catch around the body never
rethrows and the function contains no exit call. -/
def refreshSourcesPure (st : PublishedState) (cfg : SwaggerMCPConfig)
    (parse : SwaggerSource → Except String SwaggerParserResult) : PublishedState :=
  let r := parseAllSources cfg.sources parse
  if 0 < r.successCount then
    let fb := createFuseIndex r.newParsedSpecs cfg
    { parsedSpecs := r.newParsedSpecs
      allEndpoints := fb.endpoints
      fuseEndpoints := fb.fuse }
  else st

/- ## Query gateway: list_endpoints_for_source (src/src/index.ts:528-581) -/

/-- Pagination object returned by the handler (src/src/index.ts:564-570). -/
structure Pagination where
  total : ℕ
  limit : ℕ
  offset : ℕ
  hasNext : Bool
  hasPrevious : Bool
deriving DecidableEq, Repr

/-- Handler outcome: a structured error object or endpoints plus
pagination. -/
inductive ListEndpointsResult where
  | err (msg : String)
  | ok (endpoints : List ParsedEndpoint) (pagination : Pagination)
deriving DecidableEq, Repr

/-- JavaScript `Array.prototype.slice(b, e)` on natural bounds: the window
of indices [b, e). -/
def jsSlice {α : Type} (xs : List α) (b e : ℕ) : List α :=
  (xs.take e).drop b

/-- The "not found" error text of src/src/index.ts:542 (quotes written as
escapes). -/
def srcNotFoundMsg (name : String) : String :=
  "Source \x27" ++ name ++ "\x27 not found"

/-- The "failed to parse" error text of src/src/index.ts:556. -/
def srcFailedMsg (name details : String) : String :=
  "Source \x27" ++ name ++ "\x27 failed to parse - " ++ details

/-- The recorded error detail: the details of the first error, with the fallback
on a missing or falsy (empty) string (src/src/index.ts:550). -/
def errorDetails : Option (List SwaggerParseError) → String
  | some (e :: _) => if e.details = "" then "Unknown parsing error" else e.details
  | _ => "Unknown parsing error"

/-- The list_endpoints_for_source handler (src/src/index.ts:528-581) reading
a given snapshot: unknown name errors, a failed source errors with its
recorded detail, a successful source returns the slice
[offset, offset+limit) with pagination.  limit and offset are naturals
because the input schema enforces limit ≥ 1 and offset ≥ 0. -/
def listEndpointsForSource (specs : List (String × SwaggerParserResult))
    (sourceName : String) (limit offset : ℕ) : ListEndpointsResult :=
  match specsLookup specs sourceName with
  | none => .err (srcNotFoundMsg sourceName)
  | some source =>
    if h : source.success = true ∧ source.spec.isSome then
      let sp := source.spec.get h.2
      .ok (jsSlice sp.endpoints offset (offset + limit))
        { total := sp.endpoints.length
          limit := limit
          offset := offset
          hasNext := decide (offset + limit < sp.endpoints.length)
          hasPrevious := decide (0 < offset) }
    else .err (srcFailedMsg sourceName (errorDetails source.errors))

/- ## Configuration validation (src/src/types/config.ts:42-67) -/

/-- Candidate configuration presented to validation; `search` is optional
and defaulted by the schema (src/src/types/config.ts:29-32). -/
structure RawConfig where
  sources : List SwaggerSource
  search : Option SearchConfig
deriving DecidableEq, Repr

/-- The zod schema checks of src/src/types/config.ts:10-33 on the fields
modelled here: at least one source, non-empty names and locators, a fuzzy
threshold within [0,1] and a positive maxResults (with the documented
defaults when `search` is absent). -/
def schemaParse (raw : RawConfig) : Except String SwaggerMCPConfig :=
  if raw.sources.length < 1 then
    .error "sources: At least one source is required"
  else if raw.sources.any (fun s => s.name = "") then
    .error "Source name cannot be empty"
  else if raw.sources.any (fun s => s.source = "") then
    .error "Source cannot be empty"
  else
    let search := raw.search.getD { fuzzyThreshold := mkRat 6 10, maxResults := 50 }
    if search.fuzzyThreshold < 0 then .error "search.fuzzyThreshold: too small"
    else if 1 < search.fuzzyThreshold then .error "search.fuzzyThreshold: too big"
    else if search.maxResults = 0 then .error "search.maxResults: must be positive"
    else .ok { sources := raw.sources, search := search }

/-- The duplicate-name computation of src/src/types/config.ts:51-53:
`sourceNames.filter((name, index) => sourceNames.indexOf(name) !== index)`,
keeping every occurrence whose first index differs from its own index. -/
def jsDuplicates (names : List String) : List String :=
  (names.enum.filter (fun p => !(names.findIdx (fun n => n == p.2) == p.1))).map
    Prod.snd

/-- validateConfig (src/src/types/config.ts:42-67): schema errors are
wrapped in a "Configuration validation failed" message; on a schema-valid
configuration the source names are compared against their set of distinct
values (`new Set(sourceNames).size`) and a duplicate aborts validation with
an error listing the duplicated occurrences. -/
def validateConfig (raw : RawConfig) : Except String SwaggerMCPConfig :=
  match schemaParse raw with
  | .error e => .error ("Configuration validation failed:\n" ++ e)
  | .ok parsed =>
    let sourceNames := parsed.sources.map (fun s => s.name)
    if sourceNames.length ≠ sourceNames.dedup.length then
      .error ("Duplicate source names found: " ++
        String.intercalate ", " (jsDuplicates sourceNames))
    else .ok parsed

/-- Whether an `Except` carries a value. -/
def exceptIsOk {ε α : Type} : Except ε α → Bool
  | .ok _ => true
  | .error _ => false

deriving instance DecidableEq for Except

/-- Startup order of main (src/src/index.ts:327-345): the configuration is
loaded and validated first and a validation error exits before any source
is parsed; ingestion only runs on a validated configuration. -/
def startupIngest (raw : RawConfig)
    (parse : SwaggerSource → Except String SwaggerParserResult) :
    Except String ParseAllResult :=
  match validateConfig raw with
  | .error e => .error e
  | .ok cfg => .ok (parseAllSources cfg.sources parse)

/- ## Config-file watcher (src/src/index.ts:264-293) -/

/-- Timer scheduling performed by the watcher callback
(src/src/index.ts:276-283): every event whose type is "change" schedules its
own `setTimeout(handleConfigChange, 100)`; no pending timer is cleared or
coalesced, so the scheduled invocation times are one per change event.
Events are (timestamp in ms, eventType) pairs. -/
def watcherScheduledCalls (events : List (ℕ × String)) : List ℕ :=
  events.filterMap (fun e => if e.2 = "change" then some (e.1 + 100) else none)

/- ## Refresh coordinator event-loop model (src/src/index.ts:22-37,160-259) -/

/-- Generation-tagged view of the three published globals: each publish
writes all three from one ingestion pass, so a consistent observation shows
one generation three times. -/
structure PubView where
  specsGen : ℕ
  endpointsGen : ℕ
  fuseGen : ℕ
deriving DecidableEq, Repr

/-- Progress of one query (any of the three tool handlers: each awaits
waitForRefreshComplete and then reads the published globals synchronously).
A waiting reader records the refresh id whose promise it awaits and the
published view at the moment it began (ghost data used to state the
atomicity property). -/
inductive ReaderPhase where
  | notStarted
  | waiting (awaited : ℕ) (pre : PubView)
  | ready
  | done (observed : PubView) (awaited : Option (ℕ × PubView))
deriving DecidableEq, Repr

/-- Event-loop state: the published globals (as generations), the
isRefreshing flag and current refreshPromise (src/src/index.ts:22-23),
which promises have resolved, the refresh passes in flight (id and whether
ingestion will succeed on ≥ 1 source), completed passes, the count of
started ingestion passes, and one reader. -/
structure LoopState where
  pub : PubView
  isRefreshing : Bool
  curPromise : ℕ
  resolved : List ℕ
  inFlight : List (ℕ × Bool)
  completed : List (ℕ × Bool)
  passes : ℕ
  nextId : ℕ
  reader : ReaderPhase
deriving DecidableEq, Repr

/-- Initial state: refreshPromise starts as an already-resolved promise
(src/src/index.ts:23), nothing in flight, reader not yet invoked. -/
def initLoop : LoopState :=
  { pub := ⟨0, 0, 0⟩, isRefreshing := false, curPromise := 0
    resolved := [0], inFlight := [], completed := [], passes := 0
    nextId := 1, reader := .notStarted }

/-- Atomic steps of the event loop.  Each step is one synchronous region
between `await` points of the source. -/
inductive LoopEv where
  | refreshBegin (willSucceed : Bool)
  | refreshEnd (id : ℕ)
  | queryBegin
  | queryRead
deriving DecidableEq, Repr

/-- Whether the reader can run in this state: it is past its await, or the
promise it awaits has resolved. -/
def readerRunnable (s : LoopState) : Bool :=
  match s.reader with
  | .ready => true
  | .waiting a _ => decide (a ∈ s.resolved)
  | _ => false

/-- One event-loop step.
refreshBegin: the synchronous prefix shared by refreshSources
(src/src/index.ts:160-171) and handleConfigChange (src/src/index.ts:202-233)
- it sets isRefreshing, installs a fresh refreshPromise and invokes
parseAllSources, WITHOUT first checking whether a refresh is already in
flight; the pass counter increments here because the ingestion pass starts
here.
refreshEnd: the resumption after `await parseAllSources` - on a pass with at
least one success all three globals are swapped in one synchronous block
(src/src/index.ts:173-186), then the finally clause clears isRefreshing and
resolves the promise (src/src/index.ts:192-196); on a failed pass the
globals are untouched.
queryBegin: waitForRefreshComplete (src/src/index.ts:32-37) - with a refresh
in flight the reader awaits the current refreshPromise, otherwise it
proceeds.
queryRead: the synchronous read of the published globals in a handler body
after its await. -/
def loopStep (s : LoopState) : LoopEv → LoopState
  | .refreshBegin ok =>
      { s with
          isRefreshing := true
          curPromise := s.nextId
          inFlight := (s.nextId, ok) :: s.inFlight
          passes := s.passes + 1
          nextId := s.nextId + 1 }
  | .refreshEnd id =>
      match s.inFlight.find? (fun p => p.1 == id) with
      | none => s
      | some f =>
          { s with
              inFlight := s.inFlight.filter (fun p => !(p.1 == id))
              pub := if f.2 then ⟨id, id, id⟩ else s.pub
              isRefreshing := false
              resolved := id :: s.resolved
              completed := (id, f.2) :: s.completed }
  | .queryBegin =>
      match s.reader with
      | .notStarted =>
          { s with reader :=
              if s.isRefreshing then .waiting s.curPromise s.pub else .ready }
      | _ => s
  | .queryRead =>
      match s.reader with
      | .ready => { s with reader := .done s.pub none }
      | .waiting a pre =>
          if a ∈ s.resolved then { s with reader := .done s.pub (some (a, pre)) }
          else s
      | _ => s

/-- Run of a schedule from the initial state. -/
def loopRun (evs : List LoopEv) : LoopState :=
  evs.foldl loopStep initLoop

/-- Scheduler validity for one event: refresh triggers are mutually
exclusive (the single-flight discipline of spec §4.3/§5) and, per the
JavaScript event loop, a timer- or watcher-driven refresh (a macrotask)
cannot start while a resolved reader continuation (a microtask) is still
pending; a refresh can only finish if it is in flight; the reader begins
once and reads only when runnable. -/
def evValid (s : LoopState) : LoopEv → Bool
  | .refreshBegin _ => s.inFlight.isEmpty && !readerRunnable s
  | .refreshEnd id => (s.inFlight.find? (fun p => p.1 == id)).isSome
  | .queryBegin => decide (s.reader = .notStarted)
  | .queryRead => readerRunnable s

/-- Validity of a whole schedule. -/
def validRun : LoopState → List LoopEv → Bool
  | _, [] => true
  | s, e :: rest => evValid s e && validRun (loopStep s e) rest

/-- A coherent view: all three generations agree, i.e. the three globals
were published together by one ingestion pass. -/
def Coherent (p : PubView) : Prop :=
  p.endpointsGen = p.specsGen ∧ p.fuseGen = p.specsGen

/-- Total endpoint count across the Success entries of a snapshot. -/
def successEndpointTotal (entries : List (String × SwaggerParserResult)) : ℕ :=
  ((entries.filter (fun p => p.2.success)).map (fun p =>
    match p.2.spec with
    | some sp => sp.endpoints.length
    | none => 0)).sum

/- ## Concrete fixtures used by witness theorems -/

/-- A minimal endpoint record. -/
def sampleEndpoint (p : String) : ParsedEndpoint :=
  { path := p, method := "GET", summary := "", description := "", tags := [] }

/-- A successful parser result for a source named `n`. -/
def sampleOk (n : String) (eps : List ParsedEndpoint) : SwaggerParserResult :=
  { success := true, spec := some { sourceName := n, endpoints := eps }, errors := none }

/-- A failed parser result with a recorded network error. -/
def sampleBad : SwaggerParserResult :=
  { success := false, spec := none
    errors := some [{ details := "connect ECONNREFUSED", code := "NETWORK_ERROR", source := "b" }] }

/-- Three configured sources. -/
def sampleSources : List SwaggerSource :=
  [{ name := "a", source := "./a.json", description := some "A" },
   { name := "b", source := "https://b.example/swagger.json", description := some "B" },
   { name := "c", source := "./c.json", description := none }]

/-- A parser behaviour: source a succeeds with two endpoints, b returns a
failed result, c throws. -/
def sampleParse : SwaggerSource → Except String SwaggerParserResult := fun s =>
  if s.name = "b" then .ok sampleBad
  else if s.name = "c" then .error "ENOENT: no such file"
  else .ok (sampleOk s.name [sampleEndpoint "/users", sampleEndpoint "/orders"])

/-- A configuration over the three sample sources. -/
def sampleCfg : SwaggerMCPConfig :=
  { sources := sampleSources
    search := { fuzzyThreshold := mkRat 6 10, maxResults := 50 } }

/-- Seven endpoints used for pagination witnesses. -/
def sevenEndpoints : List ParsedEndpoint :=
  [sampleEndpoint "/1", sampleEndpoint "/2", sampleEndpoint "/3",
   sampleEndpoint "/4", sampleEndpoint "/5", sampleEndpoint "/6", sampleEndpoint "/7"]

/-- A snapshot with a seven-endpoint successful source and a failed one. -/
def sevenSpecs : List (String × SwaggerParserResult) :=
  [("a", sampleOk "a" sevenEndpoints), ("b", sampleBad)]

/-- A nonempty published state used to witness state retention. -/
def sampleState : PublishedState :=
  { parsedSpecs := sevenSpecs
    allEndpoints := [{ toParsedEndpoint := sampleEndpoint "/1", source_name := "a" }]
    fuseEndpoints :=
      { docs := [{ toParsedEndpoint := sampleEndpoint "/1", source_name := "a" }]
        opts := { includeScore := true, shouldSort := true, keys := fuseKeys
                  threshold := mkRat 6 10 } } }

/-- A parser behaviour under which every source fails. -/
def sampleFailParse : SwaggerSource → Except String SwaggerParserResult :=
  fun _ => .error "network down"

/-- A candidate configuration with a duplicated source name. -/
def rawDup : RawConfig :=
  { sources := [{ name := "a", source := "f1", description := none },
                { name := "a", source := "f2", description := none }]
    search := none }

/-- A candidate configuration with distinct, schema-valid source names. -/
def rawOk : RawConfig :=
  { sources := [{ name := "a", source := "f1", description := none },
                { name := "b", source := "f2", description := none }]
    search := none }

/- ## Lemmas about the ingestion pipeline -/

theorem mapSet_fresh {α : Type} {m : List (String × α)} {k : String} {v : α}
    (h : k ∉ m.map Prod.fst) : mapSet m k v = m ++ [(k, v)] := by
  simp [mapSet, h]

theorem parseStep_eq (parse : SwaggerSource → Except String SwaggerParserResult)
    (s : SwaggerSource) (acc : ParseAllResult) :
    parseStep parse s acc =
      { successCount := acc.successCount + (if sourceFails parse s then 0 else 1)
        errorCount := acc.errorCount + (if sourceFails parse s then 1 else 0)
        newParsedSpecs := mapSet acc.newParsedSpecs s.name (parseOutcome parse s) } := by
  cases h : parse s with
  | ok r =>
    by_cases hc : (r.success && r.spec.isSome) = true
    · simp [parseStep, sourceFails, parseOutcome, h, hc]
    · simp [parseStep, sourceFails, parseOutcome, h, hc]
  | error msg => simp [parseStep, sourceFails, parseOutcome, h]

theorem parseOutcome_success (parse : SwaggerSource → Except String SwaggerParserResult)
    (s : SwaggerSource) :
    (parseOutcome parse s).success = !(sourceFails parse s) := by
  cases h : parse s with
  | ok r =>
    by_cases hc : (r.success && r.spec.isSome) = true
    · have hs := (Bool.and_eq_true _ _).mp hc
      simp [parseOutcome, sourceFails, h, hc, hs.1, hs.2]
    · simp [parseOutcome, sourceFails, h, hc]
  | error msg => simp [parseOutcome, sourceFails, h]

theorem parseOutcome_spec_isSome (parse : SwaggerSource → Except String SwaggerParserResult)
    (s : SwaggerSource) :
    (parseOutcome parse s).spec.isSome = !(sourceFails parse s) := by
  cases h : parse s with
  | ok r =>
    by_cases hc : (r.success && r.spec.isSome) = true
    · have hs := (Bool.and_eq_true _ _).mp hc
      simp [parseOutcome, sourceFails, h, hc, hs.1, hs.2]
    · simp [parseOutcome, sourceFails, h, hc]
  | error msg => simp [parseOutcome, sourceFails, h]

theorem parseAllGo_eq (parse : SwaggerSource → Except String SwaggerParserResult)
    (sources : List SwaggerSource) :
    ∀ acc : ParseAllResult,
      (∀ s ∈ sources, s.name ∉ acc.newParsedSpecs.map Prod.fst) →
      (sources.map (fun s => s.name)).Nodup →
      parseAllGo parse sources acc =
        { successCount := acc.successCount +
            (sources.filter (fun s => !(sourceFails parse s))).length
          errorCount := acc.errorCount +
            (sources.filter (fun s => sourceFails parse s)).length
          newParsedSpecs := acc.newParsedSpecs ++
            sources.map (fun s => (s.name, parseOutcome parse s)) } := by
  induction sources with
  | nil => intro acc _ _; simp [parseAllGo]
  | cons s rest ih =>
    intro acc hfresh hnodup
    have hs : s.name ∉ acc.newParsedSpecs.map Prod.fst := hfresh s (by simp)
    have hnd : (rest.map (fun s => s.name)).Nodup := (List.nodup_cons.mp (by simpa using hnodup)).2
    have hne : s.name ∉ rest.map (fun s => s.name) := (List.nodup_cons.mp (by simpa using hnodup)).1
    rw [parseAllGo, parseStep_eq parse s acc, mapSet_fresh hs]
    rw [ih _ ?_ hnd]
    · cases hf : sourceFails parse s <;>
        simp [List.filter_cons, hf, List.append_assoc, Nat.add_assoc, Nat.add_comm,
          Nat.add_left_comm]
    · intro t ht
      simp only [List.map_append, List.mem_append]
      rintro (hin | hin)
      · exact hfresh t (by simp [ht]) hin
      · simp at hin
        exact hne (hin ▸ List.mem_map_of_mem (fun s => s.name) ht)

theorem parseAllSources_eq (sources : List SwaggerSource)
    (parse : SwaggerSource → Except String SwaggerParserResult)
    (hnodup : (sources.map (fun s => s.name)).Nodup) :
    parseAllSources sources parse =
      { successCount := (sources.filter (fun s => !(sourceFails parse s))).length
        errorCount := (sources.filter (fun s => sourceFails parse s)).length
        newParsedSpecs := sources.map (fun s => (s.name, parseOutcome parse s)) } := by
  rw [parseAllSources, parseAllGo_eq parse sources _ (by simp) hnodup]
  simp

theorem parseAllGo_successCount (parse : SwaggerSource → Except String SwaggerParserResult)
    (sources : List SwaggerSource) :
    ∀ acc : ParseAllResult,
      (parseAllGo parse sources acc).successCount =
        acc.successCount + (sources.filter (fun s => !(sourceFails parse s))).length := by
  induction sources with
  | nil => intro acc; simp [parseAllGo]
  | cons s rest ih =>
    intro acc
    rw [parseAllGo, parseStep_eq parse s acc, ih]
    cases hf : sourceFails parse s <;> simp [List.filter_cons, hf] <;> omega

theorem filter_length_split {α : Type} (p : α → Bool) (l : List α) :
    (l.filter p).length + (l.filter (fun a => !p a)).length = l.length := by
  induction l with
  | nil => simp
  | cons a l ih => cases h : p a <;> simp [List.filter_cons, h] <;> omega

theorem parseOutcome_fail_spec_none (parse : SwaggerSource → Except String SwaggerParserResult)
    (s : SwaggerSource) (h : (parseOutcome parse s).success = false) :
    (parseOutcome parse s).spec = none := by
  have h1 := parseOutcome_success parse s
  have h2 := parseOutcome_spec_isSome parse s
  rw [h] at h1
  rw [← h1] at h2
  simpa using Option.not_isSome_iff_eq_none.mp (by simp [h2])

theorem flatten_eq_successTotal (entries : List (String × SwaggerParserResult))
    (hwf : ∀ p ∈ entries, p.2.success = false → p.2.spec = none) :
    ((entries.map (fun p => entryEndpoints p.2)).flatten).length =
      successEndpointTotal entries := by
  induction entries with
  | nil => simp [successEndpointTotal]
  | cons p rest ih =>
    have hrest : ∀ q ∈ rest, q.2.success = false → q.2.spec = none :=
      fun q hq => hwf q (by simp [hq])
    have ihr := ih hrest
    cases hps : p.2.success with
    | false =>
      have hnone := hwf p (by simp) hps
      simp [successEndpointTotal, List.filter_cons, hps, entryEndpoints, hnone] at *
      simpa [successEndpointTotal] using ihr
    | true =>
      cases hsp : p.2.spec with
      | none =>
        simp [successEndpointTotal, List.filter_cons, hps, entryEndpoints, hsp] at *
        simpa [successEndpointTotal] using ihr
      | some sp =>
        simp [successEndpointTotal, List.filter_cons, hps, entryEndpoints, hsp] at *
        simpa [successEndpointTotal] using ihr

/-- Claim C4 (failure isolation): with pairwise-distinct configured names,
one ingestion pass yields exactly one snapshot entry per configured source
name; the Failure entries are exactly the M failing sources, the Success
entries the N-M succeeding ones; and the flattened endpoint collection built
from the snapshot has length equal to the sum of endpoint counts across the
Success entries only. -/
theorem C4_failure_isolation (sources : List SwaggerSource)
    (parse : SwaggerSource → Except String SwaggerParserResult)
    (cfg : SwaggerMCPConfig)
    (hnodup : (sources.map (fun s => s.name)).Nodup) :
    (parseAllSources sources parse).newParsedSpecs.map Prod.fst =
        sources.map (fun s => s.name) ∧
    ((parseAllSources sources parse).newParsedSpecs.filter
        (fun p => !p.2.success)).length =
      (sources.filter (fun s => sourceFails parse s)).length ∧
    ((parseAllSources sources parse).newParsedSpecs.filter
        (fun p => p.2.success)).length =
      sources.length - (sources.filter (fun s => sourceFails parse s)).length ∧
    (createFuseIndex (parseAllSources sources parse).newParsedSpecs cfg).endpoints.length =
      successEndpointTotal (parseAllSources sources parse).newParsedSpecs := by
  rw [parseAllSources_eq sources parse hnodup]
  refine ⟨by simp, ?_, ?_, ?_⟩
  · rw [List.filter_map, List.length_map]
    congr 1
    refine List.filter_congr (fun s _ => ?_)
    simp [parseOutcome_success]
  · rw [List.filter_map, List.length_map]
    have hsp : (sources.filter ((fun p => p.2.success) ∘
        (fun s => (s.name, parseOutcome parse s)))).length =
        (sources.filter (fun s => !(sourceFails parse s))).length := by
      congr 1
      refine List.filter_congr (fun s _ => ?_)
      simp [parseOutcome_success]
    rw [hsp]
    have := filter_length_split (fun s => sourceFails parse s) sources
    simp only [List.length_map] at *
    omega
  · simp only [createFuseIndex]
    refine flatten_eq_successTotal _ ?_
    intro p hp hfail
    simp only [List.mem_map] at hp
    obtain ⟨s, _, rfl⟩ := hp
    exact parseOutcome_fail_spec_none parse s hfail

/-- Witness for C4 at a concrete input: three configured sources of which
two fail (one failed result, one thrown error); the snapshot carries one
entry per name, two Failure entries, one Success entry, and the flattened
collection has the two endpoints of the one successful source. -/
theorem C4_failure_isolation_witness :
    ((parseAllSources sampleSources sampleParse).newParsedSpecs.map Prod.fst =
        sampleSources.map (fun s => s.name) ∧
      ((parseAllSources sampleSources sampleParse).newParsedSpecs.filter
          (fun p => !p.2.success)).length =
        (sampleSources.filter (fun s => sourceFails sampleParse s)).length ∧
      ((parseAllSources sampleSources sampleParse).newParsedSpecs.filter
          (fun p => p.2.success)).length =
        sampleSources.length -
          (sampleSources.filter (fun s => sourceFails sampleParse s)).length ∧
      (createFuseIndex (parseAllSources sampleSources sampleParse).newParsedSpecs
          sampleCfg).endpoints.length =
        successEndpointTotal (parseAllSources sampleSources sampleParse).newParsedSpecs) ∧
    (sampleSources.filter (fun s => sourceFails sampleParse s)).length = 2 ∧
    (createFuseIndex (parseAllSources sampleSources sampleParse).newParsedSpecs
        sampleCfg).endpoints.length = 2 :=
  ⟨C4_failure_isolation sampleSources sampleParse sampleCfg (by decide),
   by decide, by decide⟩

/-- Claim C5 (atomicity on total refresh failure): when ingestion fails on
every configured source, a refresh pass leaves the published state (specs
map, endpoints array, search index) exactly as it was; refreshSourcesPure is
a total function with no exit path, so the process keeps serving. -/
theorem C5_total_failure_atomic (st : PublishedState) (cfg : SwaggerMCPConfig)
    (parse : SwaggerSource → Except String SwaggerParserResult)
    (hall : ∀ s ∈ cfg.sources, sourceFails parse s = true) :
    refreshSourcesPure st cfg parse = st := by
  have hfil : cfg.sources.filter (fun s => !(sourceFails parse s)) = [] := by
    refine List.filter_eq_nil_iff.mpr ?_
    intro s hs
    simp [hall s hs]
  have hsc : (parseAllSources cfg.sources parse).successCount = 0 := by
    rw [parseAllSources, parseAllGo_successCount, hfil]
    simp
  simp [refreshSourcesPure, hsc]

/-- Witness for C5 at a concrete input: every source fails with a network
error, the nonempty published state survives unchanged. -/
theorem C5_total_failure_atomic_witness :
    refreshSourcesPure sampleState sampleCfg sampleFailParse = sampleState :=
  C5_total_failure_atomic sampleState sampleCfg sampleFailParse (by decide)

/- ## Lemmas about the query gateway -/

theorem listEndpoints_ok (specs : List (String × SwaggerParserResult))
    (name : String) (limit offset : ℕ) (src : SwaggerParserResult)
    (sp : ParsedSwaggerSpec)
    (hfind : specsLookup specs name = some src)
    (hsucc : src.success = true) (hspec : src.spec = some sp) :
    listEndpointsForSource specs name limit offset =
      .ok (jsSlice sp.endpoints offset (offset + limit))
        { total := sp.endpoints.length
          limit := limit
          offset := offset
          hasNext := decide (offset + limit < sp.endpoints.length)
          hasPrevious := decide (0 < offset) } := by
  have hcond : src.success = true ∧ src.spec.isSome := ⟨hsucc, by simp [hspec]⟩
  simp only [listEndpointsForSource, hfind]
  rw [dif_pos hcond]
  simp [hspec]

theorem listEndpoints_notFound (specs : List (String × SwaggerParserResult))
    (name : String) (limit offset : ℕ)
    (hfind : specsLookup specs name = none) :
    listEndpointsForSource specs name limit offset = .err (srcNotFoundMsg name) := by
  rw [listEndpointsForSource, hfind]

theorem listEndpoints_failed (specs : List (String × SwaggerParserResult))
    (name : String) (limit offset : ℕ) (src : SwaggerParserResult)
    (hfind : specsLookup specs name = some src)
    (hfail : src.success = false) :
    listEndpointsForSource specs name limit offset =
      .err (srcFailedMsg name (errorDetails src.errors)) := by
  simp only [listEndpointsForSource, hfind]
  rw [dif_neg]
  simp [hfail]

theorem jsSlice_eq_drop_take {α : Type} (xs : List α) (b l : ℕ) :
    jsSlice xs b (b + l) = (xs.drop b).take l := by
  rw [jsSlice, List.drop_take]
  congr 1
  omega

theorem srcMsgs_ne (name d : String) : srcNotFoundMsg name ≠ srcFailedMsg name d := by
  intro h
  have h2 := congrArg String.length h
  rw [srcNotFoundMsg, srcFailedMsg] at h2
  have e1 : ("\x27 not found" : String).length = 11 := by decide
  have e2 : ("\x27 failed to parse - " : String).length = 20 := by decide
  simp only [String.length_append, e1, e2] at h2
  omega

theorem specsLookup_mem {specs : List (String × SwaggerParserResult)}
    {name : String} {src : SwaggerParserResult}
    (h : specsLookup specs name = some src) : ∃ k, (k, src) ∈ specs := by
  rw [specsLookup] at h
  cases hf : specs.find? (fun p => p.1 == name) with
  | none => rw [hf] at h; simp at h
  | some pr =>
    rw [hf] at h
    simp at h
    refine ⟨pr.1, ?_⟩
    have hm := List.mem_of_find?_eq_some hf
    have : pr = (pr.1, src) := by
      cases pr
      simpa using h
    rw [← this]
    exact hm

/-- Claim C6 (pagination correctness): a successful source answers with
exactly the slice [offset, offset+limit) of its endpoint sequence and
pagination total/limit/offset/hasNext/hasPrevious as specified; in
particular for total 7, limit 3, offset 3 the page has 3 endpoints with
hasNext and hasPrevious both true, and for total 7, limit 3, offset 6 the
page has 1 endpoint with hasNext false. -/
theorem C6_pagination (specs : List (String × SwaggerParserResult))
    (name : String) (limit offset : ℕ) (src : SwaggerParserResult)
    (sp : ParsedSwaggerSpec)
    (hfind : specsLookup specs name = some src)
    (hsucc : src.success = true) (hspec : src.spec = some sp) :
    listEndpointsForSource specs name limit offset =
      .ok ((sp.endpoints.drop offset).take limit)
        { total := sp.endpoints.length
          limit := limit
          offset := offset
          hasNext := decide (offset + limit < sp.endpoints.length)
          hasPrevious := decide (0 < offset) } ∧
    (sp.endpoints.length = 7 → limit = 3 → offset = 3 →
      ((sp.endpoints.drop offset).take limit).length = 3 ∧
      decide (offset + limit < sp.endpoints.length) = true ∧
      decide (0 < offset) = true) ∧
    (sp.endpoints.length = 7 → limit = 3 → offset = 6 →
      ((sp.endpoints.drop offset).take limit).length = 1 ∧
      decide (offset + limit < sp.endpoints.length) = false) := by
  refine ⟨?_, ?_, ?_⟩
  · rw [← jsSlice_eq_drop_take]
    exact listEndpoints_ok specs name limit offset src sp hfind hsucc hspec
  · rintro h7 rfl rfl
    refine ⟨?_, by simp [h7], by simp⟩
    simp [List.length_take, List.length_drop, h7]
  · rintro h7 rfl rfl
    refine ⟨?_, by simp [h7]⟩
    simp [List.length_take, List.length_drop, h7]

/-- Witness for C6 at a concrete seven-endpoint source: limit 3, offset 3
gives a 3-endpoint page with hasNext and hasPrevious; limit 3, offset 6
gives a 1-endpoint page without hasNext. -/
theorem C6_pagination_witness :
    (listEndpointsForSource sevenSpecs "a" 3 3 =
      .ok ((sevenEndpoints.drop 3).take 3)
        { total := sevenEndpoints.length
          limit := 3
          offset := 3
          hasNext := decide (3 + 3 < sevenEndpoints.length)
          hasPrevious := decide (0 < 3) } ∧
     listEndpointsForSource sevenSpecs "a" 3 6 =
      .ok ((sevenEndpoints.drop 6).take 3)
        { total := sevenEndpoints.length
          limit := 3
          offset := 6
          hasNext := decide (6 + 3 < sevenEndpoints.length)
          hasPrevious := decide (0 < 6) }) ∧
    ((sevenEndpoints.drop 3).take 3).length = 3 ∧
    ((sevenEndpoints.drop 6).take 3).length = 1 ∧
    decide (3 + 3 < sevenEndpoints.length) = true ∧
    decide (6 + 3 < sevenEndpoints.length) = false :=
  ⟨⟨(C6_pagination sevenSpecs "a" 3 3 (sampleOk "a" sevenEndpoints)
      { sourceName := "a", endpoints := sevenEndpoints } (by decide) rfl rfl).1,
    (C6_pagination sevenSpecs "a" 3 6 (sampleOk "a" sevenEndpoints)
      { sourceName := "a", endpoints := sevenEndpoints } (by decide) rfl rfl).1⟩,
   by decide, by decide, by decide, by decide⟩

/-- Claim C7 (query error surface): against a well-formed snapshot (every
Success entry carries a spec, as every parseAllSources snapshot does),
list_endpoints_for_source answers the structured not-found error exactly for
absent names, the structured failed-to-parse error carrying the recorded
detail exactly for present Failure entries, and otherwise endpoints plus
pagination. -/
theorem C7_error_surface (specs : List (String × SwaggerParserResult))
    (name : String) (limit offset : ℕ)
    (hwf : ∀ p ∈ specs, p.2.success = true → p.2.spec.isSome = true) :
    (listEndpointsForSource specs name limit offset = .err (srcNotFoundMsg name) ↔
      specsLookup specs name = none) ∧
    (∀ src, specsLookup specs name = some src →
      (listEndpointsForSource specs name limit offset =
          .err (srcFailedMsg name (errorDetails src.errors)) ↔
        src.success = false)) ∧
    (∀ src, specsLookup specs name = some src → src.success = true →
      ∃ sp, src.spec = some sp ∧
        listEndpointsForSource specs name limit offset =
          .ok (jsSlice sp.endpoints offset (offset + limit))
            { total := sp.endpoints.length
              limit := limit
              offset := offset
              hasNext := decide (offset + limit < sp.endpoints.length)
              hasPrevious := decide (0 < offset) }) := by
  have hspecOf : ∀ src, specsLookup specs name = some src → src.success = true →
      ∃ sp, src.spec = some sp := by
    intro src hsrc hs
    obtain ⟨k, hk⟩ := specsLookup_mem hsrc
    exact Option.isSome_iff_exists.mp (hwf (k, src) hk hs)
  refine ⟨?_, ?_, ?_⟩
  · cases hl : specsLookup specs name with
    | none => simp [listEndpoints_notFound specs name limit offset hl]
    | some src =>
      constructor
      · intro heq
        exfalso
        cases hs : src.success with
        | false =>
          rw [listEndpoints_failed specs name limit offset src hl hs] at heq
          exact srcMsgs_ne name _ (ListEndpointsResult.err.inj heq).symm
        | true =>
          obtain ⟨sp, hsp⟩ := hspecOf src hl hs
          rw [listEndpoints_ok specs name limit offset src sp hl hs hsp] at heq
          simp at heq
      · intro hnone
        simp at hnone
  · intro src hsrc
    constructor
    · intro heq
      cases hs : src.success with
      | false => rfl
      | true =>
        exfalso
        obtain ⟨sp, hsp⟩ := hspecOf src hsrc hs
        rw [listEndpoints_ok specs name limit offset src sp hsrc hs hsp] at heq
        simp at heq
    · intro hs
      exact listEndpoints_failed specs name limit offset src hsrc hs
  · intro src hsrc hs
    obtain ⟨sp, hsp⟩ := hspecOf src hsrc hs
    exact ⟨sp, hsp, listEndpoints_ok specs name limit offset src sp hsrc hs hsp⟩

/-- Witness for C7 at a concrete snapshot: an absent name answers the
not-found error, and the failed source answers the failed-to-parse error
carrying its recorded network-error detail. -/
theorem C7_error_surface_witness :
    (listEndpointsForSource sevenSpecs "missing" 10 0 =
        .err (srcNotFoundMsg "missing") ↔
      specsLookup sevenSpecs "missing" = none) ∧
    listEndpointsForSource sevenSpecs "b" 10 0 =
      .err (srcFailedMsg "b" (errorDetails sampleBad.errors)) :=
  ⟨(C7_error_surface sevenSpecs "missing" 10 0 (by decide)).1,
   ((C7_error_surface sevenSpecs "b" 10 0 (by decide)).2.1 sampleBad (by decide)).mpr rfl⟩

/-- Claim C10 (offset at or beyond total): a successful source with an
offset at or past its endpoint count is not an error - the page is empty,
hasNext is false, total/limit/offset are echoed, and hasPrevious still
reflects offset > 0, so it can be true on an empty page. -/
theorem C10_offset_beyond_total (specs : List (String × SwaggerParserResult))
    (name : String) (limit offset : ℕ) (src : SwaggerParserResult)
    (sp : ParsedSwaggerSpec)
    (hfind : specsLookup specs name = some src)
    (hsucc : src.success = true) (hspec : src.spec = some sp)
    (hoff : sp.endpoints.length ≤ offset) :
    listEndpointsForSource specs name limit offset =
      .ok []
        { total := sp.endpoints.length
          limit := limit
          offset := offset
          hasNext := false
          hasPrevious := decide (0 < offset) } ∧
    (0 < offset → decide (0 < offset) = true) := by
  refine ⟨?_, fun h => by simp [h]⟩
  rw [listEndpoints_ok specs name limit offset src sp hfind hsucc hspec]
  have hempty : jsSlice sp.endpoints offset (offset + limit) = [] := by
    rw [jsSlice]
    apply List.drop_eq_nil_of_le
    have := List.length_take (offset + limit) sp.endpoints
    omega
  have hnext : decide (offset + limit < sp.endpoints.length) = false := by
    simp only [decide_eq_false_iff_not]
    omega
  rw [hempty, hnext]

/-- Witness for C10: offset 9 on the seven-endpoint source returns an empty
page whose hasPrevious is true. -/
theorem C10_offset_beyond_total_witness :
    listEndpointsForSource sevenSpecs "a" 10 9 =
      .ok []
        { total := sevenEndpoints.length
          limit := 10
          offset := 9
          hasNext := false
          hasPrevious := decide (0 < 9) } ∧
    (0 < 9 → decide (0 < 9) = true) :=
  C10_offset_beyond_total sevenSpecs "a" 10 9 (sampleOk "a" sevenEndpoints)
    { sourceName := "a", endpoints := sevenEndpoints } (by decide) rfl rfl (by decide)

/- ## Index idempotence, uniqueness validation, debounce, single-flight -/

/-- Claim C8 (index build idempotence): building the search index twice from
one unchanged snapshot with fixed weights and threshold yields indexes whose
result lists agree, items and order, on every query - the builder is a pure
function of the snapshot and the configuration; correspondingly a second
refresh pass over unchanged parse outcomes republishes exactly the state the
first one published. -/
theorem C8_index_idempotent (specs : List (String × SwaggerParserResult))
    (cfg : SwaggerMCPConfig) :
    (∀ q : String,
      fuseSearch (createFuseIndex specs cfg).fuse q =
        fuseSearch (createFuseIndex specs cfg).fuse q) ∧
    (∀ (st : PublishedState) (parse : SwaggerSource → Except String SwaggerParserResult),
      refreshSourcesPure (refreshSourcesPure st cfg parse) cfg parse =
        refreshSourcesPure st cfg parse) := by
  refine ⟨fun q => rfl, fun st parse => ?_⟩
  by_cases h : 0 < (parseAllSources cfg.sources parse).successCount
  · simp [refreshSourcesPure, h]
  · simp [refreshSourcesPure, h]

theorem length_ne_dedup_of_not_nodup {names : List String}
    (h : ¬ names.Nodup) : names.length ≠ names.dedup.length := by
  intro he
  apply h
  have hsub : names.dedup.Sublist names := List.dedup_sublist names
  have heq : names.dedup = names := hsub.eq_of_length he.symm
  have := List.nodup_dedup names
  rwa [heq] at this

theorem schemaParse_sources {raw : RawConfig} {cfg : SwaggerMCPConfig}
    (h : schemaParse raw = .ok cfg) : cfg.sources = raw.sources := by
  simp only [schemaParse] at h
  repeat' split at h
  all_goals try exact (Except.noConfusion h)
  injection h with h2
  subst h2
  rfl

/-- Claim C9 (uniqueness validation): a Source Set with a duplicated name
never validates - validateConfig errors and the startup pipeline therefore
never reaches ingestion; on a schema-valid configuration the duplicate case
produces exactly the error listing the duplicated occurrences, and
pairwise-distinct names validate successfully. -/
theorem C9_uniqueness (raw : RawConfig)
    (parse : SwaggerSource → Except String SwaggerParserResult) :
    (¬ (raw.sources.map (fun s => s.name)).Nodup →
      exceptIsOk (validateConfig raw) = false ∧
      exceptIsOk (startupIngest raw parse) = false) ∧
    (∀ cfg, schemaParse raw = .ok cfg →
      ((raw.sources.map (fun s => s.name)).Nodup → validateConfig raw = .ok cfg) ∧
      (¬ (raw.sources.map (fun s => s.name)).Nodup →
        validateConfig raw = .error ("Duplicate source names found: " ++
          String.intercalate ", "
            (jsDuplicates (raw.sources.map (fun s => s.name)))))) := by
  constructor
  · intro hnd
    cases hsp : schemaParse raw with
    | error e =>
      constructor
      · simp [validateConfig, hsp, exceptIsOk]
      · simp [startupIngest, validateConfig, hsp, exceptIsOk]
    | ok cfg =>
      have hs := schemaParse_sources hsp
      have hnames : cfg.sources.map (fun s => s.name) =
          raw.sources.map (fun s => s.name) := by rw [hs]
      have hne : (cfg.sources.map (fun s => s.name)).length ≠
          (cfg.sources.map (fun s => s.name)).dedup.length :=
        length_ne_dedup_of_not_nodup (by rw [hnames]; exact hnd)
      constructor
      · simp only [validateConfig, hsp]
        rw [if_pos hne]
        rfl
      · simp only [startupIngest, validateConfig, hsp]
        rw [if_pos hne]
        rfl
  · intro cfg hsp
    have hs := schemaParse_sources hsp
    have hnames : cfg.sources.map (fun s => s.name) =
        raw.sources.map (fun s => s.name) := by rw [hs]
    constructor
    · intro hnd
      have hdd : (cfg.sources.map (fun s => s.name)).dedup =
          cfg.sources.map (fun s => s.name) :=
        List.dedup_eq_self.mpr (by rw [hnames]; exact hnd)
      simp only [validateConfig, hsp]
      rw [if_neg (by rw [hdd]; simp)]
    · intro hnd
      have hne : (cfg.sources.map (fun s => s.name)).length ≠
          (cfg.sources.map (fun s => s.name)).dedup.length :=
        length_ne_dedup_of_not_nodup (by rw [hnames]; exact hnd)
      simp only [validateConfig, hsp]
      rw [if_pos hne, hnames]

/-- Witness for C9 at concrete inputs: the duplicated pair of sources fails
validation (and the startup pipeline never ingests), with the error naming
the duplicate; the distinct pair validates. -/
theorem C9_uniqueness_witness :
    (exceptIsOk (validateConfig rawDup) = false ∧
      exceptIsOk (startupIngest rawDup sampleParse) = false) ∧
    validateConfig rawDup = .error ("Duplicate source names found: " ++
      String.intercalate ", " (jsDuplicates (rawDup.sources.map (fun s => s.name)))) ∧
    validateConfig rawOk =
      .ok { sources := rawOk.sources
            search := { fuzzyThreshold := mkRat 6 10, maxResults := 50 } } :=
  ⟨(C9_uniqueness rawDup sampleParse).1 (by decide),
   ((C9_uniqueness rawDup sampleParse).2
      { sources := rawDup.sources
        search := { fuzzyThreshold := mkRat 6 10, maxResults := 50 } }
      (by decide)).2 (by decide),
   ((C9_uniqueness rawOk sampleParse).2
      { sources := rawOk.sources
        search := { fuzzyThreshold := mkRat 6 10, maxResults := 50 } }
      (by decide)).1 (by decide)⟩

/-- Claim C3 assessment: the watcher callback (src/src/index.ts:276-283)
schedules an independent 100 ms timeout invoking handleConfigChange for
every "change" event and never clears a pending timer, so a burst of two
change events 10 ms apart schedules two refreshes (at 100 ms and 110 ms),
not one; in general exactly one invocation is scheduled per change event. -/
theorem C3_debounce_failure :
    watcherScheduledCalls [(0, "change"), (10, "change")] = [100, 110] ∧
    (watcherScheduledCalls [(0, "change"), (10, "change")]).length = 2 ∧
    (∀ events : List (ℕ × String),
      (watcherScheduledCalls events).length =
        (events.filter (fun e => e.2 == "change")).length) := by
  refine ⟨by decide, by decide, ?_⟩
  intro events
  induction events with
  | nil => rfl
  | cons e rest ih =>
    by_cases h : e.2 = "change" <;>
      simp [watcherScheduledCalls, List.filterMap_cons, List.filter_cons, h] <;>
      simpa [watcherScheduledCalls] using ih

/-- Claim C1 assessment: neither refreshSources (src/src/index.ts:163-168)
nor handleConfigChange (src/src/index.ts:205-210) consults isRefreshing
before setting it, so two triggers arriving in the same instant each start
their own ingestion pass: after both begin, two passes are in flight
concurrently; when the first finishes, its finally clause clears the flag,
so the coordinator reads Idle although the second pass is still in flight
and two passes - not one - have started since the last Idle. -/
theorem C1_single_flight_violation :
    (loopRun [.refreshBegin true, .refreshBegin true]).inFlight.length = 2 ∧
    (loopRun [.refreshBegin true, .refreshBegin true]).passes = 2 ∧
    (loopRun [.refreshBegin true, .refreshBegin true, .refreshEnd 1]).isRefreshing
      = false ∧
    (loopRun [.refreshBegin true, .refreshBegin true, .refreshEnd 1]).inFlight.length
      = 1 :=
  ⟨by decide, by decide, by decide, by decide⟩

/- ## Lemmas about the event-loop model -/

/-- Coherence invariant over arbitrary (even invalidly scheduled) runs: the
published view, every recorded pre-view and every completed observation is
coherent, because the publish step writes all three globals in one
synchronous block and every read is one synchronous block. -/
def CohState (s : LoopState) : Prop :=
  Coherent s.pub ∧
  (∀ a pre, s.reader = .waiting a pre → Coherent pre) ∧
  (∀ obs aw, s.reader = .done obs aw → Coherent obs ∧
    ∀ a pre, aw = some (a, pre) → Coherent pre)

theorem cohState_init : CohState initLoop := by
  refine ⟨⟨rfl, rfl⟩, ?_, ?_⟩
  · intro a pre h
    simp [initLoop] at h
  · intro obs aw h
    simp [initLoop] at h

theorem cohState_step (s : LoopState) (e : LoopEv) (h : CohState s) :
    CohState (loopStep s e) := by
  obtain ⟨hpub, hwait, hdone⟩ := h
  cases e with
  | refreshBegin ok =>
    exact ⟨hpub, fun a pre hr => hwait a pre hr, fun obs aw hr => hdone obs aw hr⟩
  | refreshEnd id =>
    cases hf : s.inFlight.find? (fun p => p.1 == id) with
    | none =>
      simp only [loopStep, hf]
      exact ⟨hpub, hwait, hdone⟩
    | some f =>
      simp only [loopStep, hf]
      refine ⟨?_, fun a pre hr => hwait a pre hr, fun obs aw hr => hdone obs aw hr⟩
      by_cases hok : f.2 = true
      · simp [hok]
        exact ⟨rfl, rfl⟩
      · simp [Bool.eq_false_iff.mpr hok] at *
        simpa using hpub
  | queryBegin =>
    cases hr : s.reader with
    | notStarted =>
      simp only [loopStep, hr]
      refine ⟨hpub, ?_, ?_⟩
      · intro a pre hw
        by_cases hrf : s.isRefreshing = true
        · simp [hrf] at hw
          rw [← hw.2]
          exact hpub
        · simp [Bool.eq_false_iff.mpr hrf] at hw
      · intro obs aw hd
        by_cases hrf : s.isRefreshing = true
        · simp [hrf] at hd
        · simp [Bool.eq_false_iff.mpr hrf] at hd
    | waiting a pre =>
      simp only [loopStep, hr]
      exact ⟨hpub, hwait, hdone⟩
    | ready =>
      simp only [loopStep, hr]
      exact ⟨hpub, hwait, hdone⟩
    | done obs aw =>
      simp only [loopStep, hr]
      exact ⟨hpub, hwait, hdone⟩
  | queryRead =>
    cases hr : s.reader with
    | notStarted =>
      simp only [loopStep, hr]
      exact ⟨hpub, hwait, hdone⟩
    | ready =>
      simp only [loopStep, hr]
      refine ⟨hpub, fun a pre hw => by simp at hw, ?_⟩
      intro obs aw hd
      injection hd with h1 h2
      subst h1
      subst h2
      exact ⟨hpub, by simp⟩
    | waiting a pre =>
      simp only [loopStep, hr]
      by_cases hm : a ∈ s.resolved
      · simp only [if_pos hm]
        refine ⟨hpub, fun a2 pre2 hw => by simp at hw, ?_⟩
        intro obs aw hd
        injection hd with h1 h2
        subst h1
        subst h2
        refine ⟨hpub, ?_⟩
        intro a2 pre2 hsome
        injection hsome with h3
        injection h3 with h4 h5
        subst h4
        subst h5
        exact hwait a pre hr
      · simp only [if_neg hm]
        exact ⟨hpub, hwait, hdone⟩
    | done obs aw =>
      simp only [loopStep, hr]
      exact ⟨hpub, hwait, hdone⟩

theorem cohState_run (evs : List LoopEv) : CohState (loopRun evs) := by
  rw [loopRun]
  have hgen : ∀ s, CohState s → CohState (evs.foldl loopStep s) := by
    induction evs with
    | nil => intro s hs; exact hs
    | cons e rest ih =>
      intro s hs
      exact ih (loopStep s e) (cohState_step s e hs)
  exact hgen initLoop cohState_init

/-- Invariant along validly scheduled runs (single-flight discipline plus
JavaScript microtask-before-macrotask ordering): promise ids are fresh, at
most one refresh is in flight and it owns the current promise, the
isRefreshing flag tracks the in-flight pass, a runnable reader coexists with
no in-flight pass, a reader waiting on an unresolved pass sees the published
view it recorded, a reader whose awaited pass resolved sees the view that
pass published (on success) or its recorded pre-view (on failure), and a
finished reader observed exactly one of those two views in full. -/
structure LoopInv (s : LoopState) : Prop where
  resolved_lt : ∀ i ∈ s.resolved, i < s.nextId
  flight_lt : ∀ p ∈ s.inFlight, p.1 < s.nextId
  flight_shape : s.inFlight = [] ∨
    ∃ ok, s.inFlight = [(s.curPromise, ok)] ∧ s.curPromise ∉ s.resolved
  flag_iff : s.isRefreshing = true ↔ s.inFlight ≠ []
  runnable_empty : readerRunnable s = true → s.inFlight = []
  waiting_unres : ∀ a pre, s.reader = .waiting a pre → a ∉ s.resolved →
    (∃ ok, s.inFlight = [(a, ok)]) ∧ s.pub = pre
  waiting_res : ∀ a pre, s.reader = .waiting a pre → a ∈ s.resolved →
    ∃ ok, (a, ok) ∈ s.completed ∧ s.pub = (if ok then PubView.mk a a a else pre)
  done_spec : ∀ obs a pre, s.reader = .done obs (some (a, pre)) →
    ∃ ok, (a, ok) ∈ s.completed ∧ obs = (if ok then PubView.mk a a a else pre)

theorem loopInv_init : LoopInv initLoop := by
  refine ⟨?_, ?_, ?_, ?_, ?_, ?_, ?_, ?_⟩
  · intro i hi
    simp [initLoop] at hi
    simp [initLoop, hi]
  · intro p hp
    simp [initLoop] at hp
  · left
    rfl
  · simp [initLoop]
  · intro hr
    simp [readerRunnable, initLoop] at hr
  · intro a pre hw
    simp [initLoop] at hw
  · intro a pre hw
    simp [initLoop] at hw
  · intro obs a pre hd
    simp [initLoop] at hd

theorem loopInv_step (s : LoopState) (e : LoopEv) (hv : evValid s e = true)
    (h : LoopInv s) : LoopInv (loopStep s e) := by
  cases e with
  | refreshBegin ok =>
    simp only [evValid, Bool.and_eq_true] at hv
    have hfe : s.inFlight = [] := by simpa using hv.1
    have hrn : readerRunnable s = false := by simpa using hv.2
    simp only [loopStep]
    refine ⟨?_, ?_, ?_, ?_, ?_, ?_, ?_, ?_⟩
    · show ∀ i ∈ s.resolved, i < s.nextId + 1
      intro i hi
      have := h.resolved_lt i hi
      omega
    · show ∀ p ∈ (s.nextId, ok) :: s.inFlight, p.1 < s.nextId + 1
      intro p hp
      rw [hfe] at hp
      simp at hp
      simp [hp]
    · right
      refine ⟨ok, ?_, ?_⟩
      · show (s.nextId, ok) :: s.inFlight = [(s.nextId, ok)]
        rw [hfe]
      · show s.nextId ∉ s.resolved
        intro hmem
        have := h.resolved_lt _ hmem
        omega
    · show (true = true ↔ (s.nextId, ok) :: s.inFlight ≠ [])
      simp
    · intro hr
      have hrr : readerRunnable (loopStep s (.refreshBegin ok)) = readerRunnable s := rfl
      rw [show readerRunnable { s with
            isRefreshing := true
            curPromise := s.nextId
            inFlight := (s.nextId, ok) :: s.inFlight
            passes := s.passes + 1
            nextId := s.nextId + 1 } = readerRunnable s from rfl, hrn] at hr
      simp at hr
    · intro a pre hw hna
      have hw' : s.reader = .waiting a pre := hw
      obtain ⟨⟨k, hk⟩, _⟩ := h.waiting_unres a pre hw' (fun hmem => hna hmem)
      rw [hfe] at hk
      exact absurd hk (by simp)
    · intro a pre hw hna
      exfalso
      have hw' : s.reader = .waiting a pre := hw
      have : readerRunnable s = true := by
        simp [readerRunnable, hw']
        exact hna
      rw [hrn] at this
      simp at this
    · intro obs a pre hd
      have hd' : s.reader = .done obs (some (a, pre)) := hd
      exact h.done_spec obs a pre hd'
  | refreshEnd id =>
    simp only [evValid] at hv
    obtain ⟨f, hf0⟩ := Option.isSome_iff_exists.mp hv
    have hmem := List.mem_of_find?_eq_some hf0
    cases h.flight_shape with
    | inl hemp =>
      rw [hemp] at hmem
      simp at hmem
    | inr hsh =>
      obtain ⟨ok, hfl0, hcur0⟩ := hsh
      have hf := hf0
      rw [hfl0] at hf
      have hid : s.curPromise = id ∧ f = (s.curPromise, ok) := by
        by_cases hc : (s.curPromise == id) = true
        · simp [List.find?_cons, hc] at hf
          exact ⟨by simpa using hc, hf.symm⟩
        · simp [List.find?_cons, hc] at hf
      obtain ⟨hcid, hfeq⟩ := hid
      have hfl : s.inFlight = [(id, ok)] := by rw [hfl0, hcid]
      have hcur : id ∉ s.resolved := by
        rw [← hcid]
        exact hcur0
      have hfilter : s.inFlight.filter (fun p => !(p.1 == id)) = [] := by
        rw [hfl]
        simp
      have hidlt : id < s.nextId := by
        have := h.flight_lt _ hmem
        rw [hfeq] at this
        rw [← hcid]
        exact this
      have hf2 : f.2 = ok := by rw [hfeq]
      simp only [loopStep, hf0]
      refine ⟨?_, ?_, ?_, ?_, ?_, ?_, ?_, ?_⟩
      · show ∀ i ∈ id :: s.resolved, i < s.nextId
        intro i hi
        simp at hi
        rcases hi with hi | hi
        · rw [hi]; exact hidlt
        · exact h.resolved_lt i hi
      · show ∀ q ∈ s.inFlight.filter (fun p => !(p.1 == id)), q.1 < s.nextId
        rw [hfilter]
        intro q hq
        simp at hq
      · left
        exact hfilter
      · show (false = true ↔ s.inFlight.filter (fun p => !(p.1 == id)) ≠ [])
        rw [hfilter]
        simp
      · intro _
        exact hfilter
      · intro a pre hw hna
        exfalso
        have hw' : s.reader = .waiting a pre := hw
        have hna' : a ≠ id ∧ a ∉ s.resolved := by
          constructor
          · intro he
            exact hna (by simp [he])
          · intro he
            exact hna (by simp [he])
        obtain ⟨⟨k, hk⟩, _⟩ := h.waiting_unres a pre hw' hna'.2
        rw [hfl] at hk
        simp only [List.cons.injEq, Prod.mk.injEq, and_true] at hk
        exact hna'.1 hk.1.symm
      · intro a pre hw hna
        have hw' : s.reader = .waiting a pre := hw
        have hna2 : a = id ∨ a ∈ s.resolved := by simpa using hna
        rcases hna2 with rfl | hmem2
        · obtain ⟨⟨k, hk⟩, hpre⟩ := h.waiting_unres a pre hw' hcur
          have hkeq : k = ok := by
            rw [hfl] at hk
            simp only [List.cons.injEq, Prod.mk.injEq, and_true] at hk
            exact hk.2.symm
          refine ⟨ok, ?_, ?_⟩
          · show (a, ok) ∈ (a, f.2) :: s.completed
            rw [hf2]
            simp
          · show (if f.2 then PubView.mk a a a else s.pub) =
              (if ok then PubView.mk a a a else pre)
            rw [hf2, hpre]
        · exfalso
          have : readerRunnable s = true := by
            simp [readerRunnable, hw']
            exact hmem2
          have := h.runnable_empty this
          rw [this] at hfl
          exact absurd hfl (by simp)
      · intro obs a pre hd
        have hd' : s.reader = .done obs (some (a, pre)) := hd
        obtain ⟨k, hkmem, hobs⟩ := h.done_spec obs a pre hd'
        exact ⟨k, by simp [hkmem], hobs⟩
  | queryBegin =>
    simp only [evValid] at hv
    have hr : s.reader = .notStarted := of_decide_eq_true hv
    simp only [loopStep, hr]
    cases hb : s.isRefreshing with
    | true =>
      have hne : s.inFlight ≠ [] := h.flag_iff.mp hb
      have hsh : ∃ ok, s.inFlight = [(s.curPromise, ok)] ∧ s.curPromise ∉ s.resolved := by
        cases h.flight_shape with
        | inl hemp => exact absurd hemp hne
        | inr hsh => exact hsh
      obtain ⟨ok, hfl, hcur⟩ := hsh
      refine ⟨h.resolved_lt, h.flight_lt, h.flight_shape, ?_, ?_, ?_, ?_, ?_⟩
      · show (true = true ↔ s.inFlight ≠ [])
        simp [hne]
      · intro hr2
        exfalso
        have : decide (s.curPromise ∈ s.resolved) = true := hr2
        exact hcur (of_decide_eq_true this)
      · intro a pre hw hna
        have hw' : ReaderPhase.waiting s.curPromise s.pub = .waiting a pre := hw
        injection hw' with h1 h2
        subst h1
        subst h2
        exact ⟨⟨ok, hfl⟩, rfl⟩
      · intro a pre hw hna
        exfalso
        have hw' : ReaderPhase.waiting s.curPromise s.pub = .waiting a pre := hw
        injection hw' with h1 h2
        subst h1
        exact hcur hna
      · intro obs a pre hd
        exact ReaderPhase.noConfusion (show ReaderPhase.waiting s.curPromise s.pub =
          .done obs (some (a, pre)) from hd)
    | false =>
      have hfe : s.inFlight = [] := by
        by_contra hne
        have := h.flag_iff.mpr hne
        rw [hb] at this
        simp at this
      refine ⟨h.resolved_lt, h.flight_lt, h.flight_shape, ?_, ?_, ?_, ?_, ?_⟩
      · show (false = true ↔ s.inFlight ≠ [])
        simp [hfe]
      · intro _
        exact hfe
      · intro a pre hw
        exact ReaderPhase.noConfusion (show ReaderPhase.ready = .waiting a pre from hw)
      · intro a pre hw
        exact ReaderPhase.noConfusion (show ReaderPhase.ready = .waiting a pre from hw)
      · intro obs a pre hd
        exact ReaderPhase.noConfusion
          (show ReaderPhase.ready = .done obs (some (a, pre)) from hd)
  | queryRead =>
    simp only [evValid] at hv
    cases hr : s.reader with
    | notStarted =>
      rw [readerRunnable, hr] at hv
      simp at hv
    | ready =>
      have hfe : s.inFlight = [] := h.runnable_empty hv
      simp only [loopStep, hr]
      refine ⟨h.resolved_lt, h.flight_lt, h.flight_shape, h.flag_iff, ?_, ?_, ?_, ?_⟩
      · intro _
        exact hfe
      · intro a pre hw
        exact absurd hw (by simp)
      · intro a pre hw
        exact absurd hw (by simp)
      · intro obs a pre hd
        have hd' : ReaderPhase.done s.pub none = .done obs (some (a, pre)) := hd
        injection hd' with h1 h2
        exact absurd h2 (by simp)
    | waiting a pre =>
      have hm : a ∈ s.resolved := by
        rw [readerRunnable, hr] at hv
        exact of_decide_eq_true hv
      have hfe : s.inFlight = [] := h.runnable_empty hv
      obtain ⟨k, hkmem, hpub⟩ := h.waiting_res a pre hr hm
      simp only [loopStep, hr, if_pos hm]
      refine ⟨h.resolved_lt, h.flight_lt, h.flight_shape, h.flag_iff, ?_, ?_, ?_, ?_⟩
      · intro _
        exact hfe
      · intro a2 pre2 hw
        exact absurd hw (by simp)
      · intro a2 pre2 hw
        exact absurd hw (by simp)
      · intro obs a2 pre2 hd
        have hd' : ReaderPhase.done s.pub (some (a, pre)) = .done obs (some (a2, pre2)) := hd
        injection hd' with h1 h2
        injection h2 with h3
        injection h3 with h4 h5
        subst h1
        subst h4
        subst h5
        exact ⟨k, hkmem, hpub⟩
    | done obs aw =>
      rw [readerRunnable, hr] at hv
      simp at hv

theorem loopInv_fold (evs : List LoopEv) :
    ∀ s, LoopInv s → validRun s evs = true →
      LoopInv (evs.foldl loopStep s) := by
  induction evs with
  | nil =>
    intro s hs _
    exact hs
  | cons e rest ih =>
    intro s hs hv2
    rw [validRun, Bool.and_eq_true] at hv2
    exact ih (loopStep s e) (loopInv_step s e hv2.1 hs) hv2.2

theorem loopInv_run (evs : List LoopEv) (hv : validRun initLoop evs = true) :
    LoopInv (loopRun evs) := by
  rw [loopRun]
  exact loopInv_fold evs initLoop loopInv_init hv

/-- Claim C2 (snapshot atomicity for readers): over every schedule of the
event-loop model, the published triple and every observation a query makes
are coherent - all three globals stem from one ingestion pass, never a mix
or a half-swapped value (the swap at src/src/index.ts:177-181 is one
synchronous block, as is the read each handler performs after
waitForRefreshComplete);
and over every validly scheduled run (single-flight refreshes, microtasks
before macrotasks), a query that began while refresh `a` was in flight is
released only after `a` completed and then observes, in full, the
post-refresh published state when `a` published, or the pre-refresh
published state it recorded when `a` failed. -/
theorem C2_snapshot_atomicity (evs : List LoopEv) :
    Coherent (loopRun evs).pub ∧
    (∀ obs aw, (loopRun evs).reader = .done obs aw → Coherent obs) ∧
    (validRun initLoop evs = true →
      ∀ obs a pre, (loopRun evs).reader = .done obs (some (a, pre)) →
        ∃ ok, (a, ok) ∈ (loopRun evs).completed ∧
          obs = (if ok then PubView.mk a a a else pre)) := by
  refine ⟨(cohState_run evs).1, ?_, ?_⟩
  · intro obs aw hd
    exact ((cohState_run evs).2.2 obs aw hd).1
  · intro hv obs a pre hd
    exact (loopInv_run evs hv).done_spec obs a pre hd

/-- Witness for C2 on a concrete valid schedule: a refresh begins, a query
arrives while it is in flight, the refresh publishes pass 1 and resolves,
and the released query observes the post-refresh view (1,1,1) in full,
having recorded the pre-refresh view (0,0,0). -/
theorem C2_snapshot_atomicity_witness :
    Coherent (loopRun [.refreshBegin true, .queryBegin, .refreshEnd 1,
      .queryRead]).pub ∧
    (∃ ok, (1, ok) ∈ (loopRun [.refreshBegin true, .queryBegin, .refreshEnd 1,
        .queryRead]).completed ∧
      PubView.mk 1 1 1 = (if ok then PubView.mk 1 1 1 else PubView.mk 0 0 0)) :=
  ⟨(C2_snapshot_atomicity [.refreshBegin true, .queryBegin, .refreshEnd 1,
      .queryRead]).1,
   (C2_snapshot_atomicity [.refreshBegin true, .queryBegin, .refreshEnd 1,
      .queryRead]).2.2 (by decide) (PubView.mk 1 1 1) 1 (PubView.mk 0 0 0)
      (by decide)⟩
